import Mathlib

/-!
Verification of the link-rendering and sanitization engine of
`src/app/ui/pipes/render-links.pipe.ts` and the URL-metadata service of
`src/app/util/url-metadata.service.ts`.

Strings are modelled as `List Char`.  Each JavaScript regular expression of
the source is embedded as an executable matcher over `List Char` that follows
the backtracking semantics of the original pattern (greedy repetition tried
longest-first, alternatives tried left to right, leftmost match wins).
-/

set_option maxRecDepth 4096

/-- Convert a string literal to the `List Char` representation used throughout. -/
def str (s : String) : List Char := s.toList

/-- The character class `\s` of JavaScript regular expressions (also the set of
characters removed by `String.prototype.trim`). -/
def isJsWhitespace (c : Char) : Bool :=
  c = ' ' || c = '\t' || c = '\n' || c.val = 11 || c.val = 12 || c = '\r' ||
  c.val = 0xa0 || c.val = 0x1680 || (0x2000 ≤ c.val && c.val ≤ 0x200a) ||
  c.val = 0x2028 || c.val = 0x2029 || c.val = 0x202f || c.val = 0x205f ||
  c.val = 0x3000 || c.val = 0xfeff

/-- ASCII lower-casing of a single character.  This models
`String.prototype.toLowerCase` and the canonicalization of the regex `i` flag:
both only differ from the ASCII map on characters that cannot produce any of
the ASCII scheme/protocol prefixes compared against in this code. -/
def asciiLower (c : Char) : Char :=
  if c = 'A' then 'a' else if c = 'B' then 'b' else if c = 'C' then 'c' else
  if c = 'D' then 'd' else if c = 'E' then 'e' else if c = 'F' then 'f' else
  if c = 'G' then 'g' else if c = 'H' then 'h' else if c = 'I' then 'i' else
  if c = 'J' then 'j' else if c = 'K' then 'k' else if c = 'L' then 'l' else
  if c = 'M' then 'm' else if c = 'N' then 'n' else if c = 'O' then 'o' else
  if c = 'P' then 'p' else if c = 'Q' then 'q' else if c = 'R' then 'r' else
  if c = 'S' then 's' else if c = 'T' then 't' else if c = 'U' then 'u' else
  if c = 'V' then 'v' else if c = 'W' then 'w' else if c = 'X' then 'x' else
  if c = 'Y' then 'y' else if c = 'Z' then 'z' else c

/-- Lower-case a whole string (`url.trim().toLowerCase()` uses this). -/
def lowerStr (s : List Char) : List Char := s.map asciiLower

/-- Does `s` start with `pat` (case-sensitively)?  Models `String.prototype.startsWith`. -/
def startsWithStr : List Char → List Char → Bool
  | [], _ => true
  | _ :: _, [] => false
  | p :: ps, c :: cs => c = p && startsWithStr ps cs

/-- Does `s` contain `pat` as a substring?  Models `String.prototype.includes`. -/
def containsStr (pat : List Char) : List Char → Bool
  | [] => startsWithStr pat []
  | c :: t => startsWithStr pat (c :: t) || containsStr pat (c :: t).tail

/-- `String.prototype.trim`: drop leading and trailing whitespace. -/
def jsTrim (s : List Char) : List Char :=
  ((s.dropWhile isJsWhitespace).reverse.dropWhile isJsWhitespace).reverse

/-- Global single-character replacement, modelling `text.replace(/c/g, rep)`:
each occurrence of `c` is replaced by `rep` and scanning continues after the
replacement (the replacement text is never rescanned). -/
def replaceChar (c : Char) (rep : List Char) : List Char → List Char
  | [] => []
  | d :: t => (if d = c then rep else [d]) ++ replaceChar c rep t

/-- `_escapeHtml` of the pipe: four sequential global replacements, ampersand
first. -/
def escapeHtml (text : List Char) : List Char :=
  replaceChar (Char.ofNat 34) (str "&quot;")
    (replaceChar '>' (str "&gt;")
      (replaceChar '<' (str "&lt;")
        (replaceChar '&' (str "&amp;") text)))

/-- The dangerous scheme list of `_isUrlSchemeSafe`. -/
def dangerousSchemes : List (List Char) :=
  [str "javascript:", str "data:", str "vbscript:"]

/-- `_isUrlSchemeSafe` of the pipe. -/
def isUrlSchemeSafe (url : List Char) : Bool :=
  let lowerUrl := lowerStr (jsTrim url)
  if dangerousSchemes.any (fun scheme => startsWithStr scheme lowerUrl) then
    false
  else if startsWithStr (str "http://") lowerUrl ||
      startsWithStr (str "https://") lowerUrl ||
      startsWithStr (str "file://") lowerUrl ||
      startsWithStr (str "//") lowerUrl then
    true
  else if containsStr (str "://") lowerUrl = false then
    true
  else
    false

/-- The anchored test `url.match(/^(?:https?|file):\/\//)` of `_normalizeHref`.
The anchored alternation reduces to the three case-sensitive literal
prefixes (the optional `s?` is resolved by trying `https` before `http`). -/
def protocolRegexTest (url : List Char) : Bool :=
  startsWithStr (str "https://") url || startsWithStr (str "http://") url ||
    startsWithStr (str "file://") url

/-- `_normalizeHref` of the pipe (called only on scheme-safe input). -/
def normalizeHref (url : List Char) : List Char :=
  if protocolRegexTest url then url
  else if startsWithStr (str "//") url then str "https:" ++ url
  else str "http://" ++ url

/-- The sentence punctuation class `[.,;!?]` of the plain-URL cleanup. -/
def isSentencePunct (c : Char) : Bool :=
  c = '.' || c = ',' || c = ';' || c = '!' || c = '?'

/-- `url.replace(/[.,;!?]+$/, '')`: the regex matches exactly the maximal
nonempty run of sentence punctuation at the end of the string, so the
replacement removes that trailing run. -/
def stripTrailingPunct (u : List Char) : List Char :=
  (u.reverse.dropWhile isSentencePunct).reverse

/-- Generic leftmost-match scan: try the matcher `mh` at every position, left
to right, and return the decomposition `(pre, matched, captures, rest)` of the
first successful position.  `mh s` returns the match length at the start of
`s` together with its captures.  This models how a JavaScript global regex
finds its next match. -/
def scanFirst {α : Type} (mh : List Char → Option (Nat × α)) :
    List Char → Option (List Char × List Char × α × List Char)
  | [] =>
    match mh [] with
    | some (_, a) => some ([], [], a, [])
    | none => none
  | c :: rest =>
    match mh (c :: rest) with
    | some (n, a) => some ([], List.take n (c :: rest), a, List.drop n (c :: rest))
    | none =>
      match scanFirst mh rest with
      | some (p, m, a, r) => some (c :: p, m, a, r)
      | none => none

/-- Global `String.prototype.replace` with a callback, modelled with fuel
(one unit per replacement step; `s.length` always suffices because every
match of the matchers used here is nonempty).  On an empty match JavaScript
advances one character, which the middle branch mirrors. -/
def replaceAllGo {α : Type} (mh : List Char → Option (Nat × α))
    (f : List Char → α → List Char) : Nat → List Char → List Char
  | 0, s => s
  | fuel + 1, s =>
    match scanFirst mh s with
    | none => s
    | some (p, m, a, r) =>
      if m.isEmpty then
        match r with
        | [] => p ++ f m a
        | c :: r2 => p ++ f m a ++ c :: replaceAllGo mh f fuel r2
      else p ++ f m a ++ replaceAllGo mh f fuel r

/-- Global replace over a whole string. -/
def replaceAll {α : Type} (mh : List Char → Option (Nat × α))
    (f : List Char → α → List Char) (s : List Char) : List Char :=
  replaceAllGo mh f s.length s

/-- Strip `pat` as a case-insensitive prefix (the `i` flag of a regex literal),
returning the remainder on success. -/
def ciStrip : List Char → List Char → Option (List Char)
  | [], s => some s
  | _ :: _, [] => none
  | p :: ps, c :: cs => if asciiLower c = asciiLower p then ciStrip ps cs else none

/-- Remainders reachable by consuming between `1` and `k` non-whitespace
characters (`\S{1,k}`), listed in greedy order: longest consumption first,
exactly the backtracking order of the regex engine. -/
def sRunSuffixes : List Char → Nat → List (List Char)
  | _, 0 => []
  | [], _ + 1 => []
  | c :: rest, k + 1 =>
    if isJsWhitespace c then [] else sRunSuffixes rest k ++ [rest]

/-- The lookahead `(?=\s|$)`: the position is at whitespace or end of input. -/
def wsOrEnd : List Char → Bool
  | [] => true
  | c :: _ => isJsWhitespace c

/-- Length of the maximal leading run of non-whitespace characters. -/
def nonWsRun : List Char → Nat
  | [] => 0
  | c :: t => if isJsWhitespace c then 0 else nonWsRun t + 1

/-- One alternative of `URL_REGEX`: the case-insensitive literal prefix `pat`
followed by `\S{1,2000}(?=\s|$)` (greedy, tried longest-first). -/
def urlAlt (pat : List Char) (s : List Char) : Option (Nat × Unit) :=
  match ciStrip pat s with
  | some rest =>
    match (sRunSuffixes rest 2000).find? wsOrEnd with
    | some rem => some (pat.length + (rest.length - rem.length), ())
    | none => none
  | none => none

/-- The prefixes of `URL_REGEX` in the order the alternation tries them:
`(?:https?|file):\/\/` (with greedy `s?`) and then `www\.`. -/
def urlPrefixes : List (List Char) :=
  [str "https://", str "http://", str "file://", str "www."]

/-- Match of `URL_REGEX = /(?:(?:https?|file):\/\/\S{1,2000}(?=\s|$)|www\.\S{1,2000}(?=\s|$))/gi`
at the current position. -/
def urlMatchHere (s : List Char) : Option (Nat × Unit) :=
  urlAlt (str "https://") s <|> urlAlt (str "http://") s <|>
    urlAlt (str "file://") s <|> urlAlt (str "www.") s

/-- Take the maximal run of characters satisfying `p` together with the rest. -/
def takeRun (p : Char → Bool) : List Char → List Char × List Char
  | [] => ([], [])
  | c :: t =>
    if p c then
      let (run, rest) := takeRun p t
      (c :: run, rest)
    else ([], c :: t)

/-- Match of `MARKDOWN_LINK_REGEX = /\[([^\]]+)\]\(([^)]+)\)/g` at the current
position, returning the match length and the two captures (title, url).
`[^\]]+` before the literal `]` can only succeed on the maximal run up to the
first `]` (any shorter greedy backtrack faces a non-`]` character), and
likewise for `[^)]+` before `)`. -/
def mdMatchHere (s : List Char) : Option (Nat × (List Char × List Char)) :=
  match s with
  | '[' :: rest =>
    let (title, rest1) := takeRun (fun c => c ≠ ']') rest
    if title.isEmpty then none
    else
      match rest1 with
      | ']' :: '(' :: rest2 =>
        let (url, rest3) := takeRun (fun c => c ≠ ')') rest2
        if url.isEmpty then none
        else
          match rest3 with
          | ')' :: _ => some (title.length + url.length + 4, (title, url))
          | _ => none
      | _ => none
  | _ => none

/-- Word characters for the `\b` boundary of the anchor regex. -/
def isWordChar (c : Char) : Bool :=
  ('a' ≤ c && c ≤ 'z') || ('A' ≤ c && c ≤ 'Z') || ('0' ≤ c && c ≤ '9') || c = '_'

/-- Split at the first occurrence of `ch`, returning the characters before it
and the rest after it (`[^c]*c` with a greedy class can only consume exactly
up to the first `ch`). -/
def splitAtChar (ch : Char) : List Char → Option (List Char × List Char)
  | [] => none
  | c :: t =>
    if c = ch then some ([], t)
    else
      match splitAtChar ch t with
      | some (b, a) => some (c :: b, a)
      | none => none

/-- Number of characters consumed up to and including the first occurrence of
the literal `pat` (the reduction of the lazy `.*?pat` with the `s` flag). -/
def findLit (pat : List Char) : List Char → Option Nat
  | [] => if startsWithStr pat [] then some pat.length else none
  | c :: t =>
    if startsWithStr pat (c :: t) then some pat.length
    else
      match findLit pat t with
      | some n => some (n + 1)
      | none => none

/-- Match of the anchor regex `/<a\b[^>]*>.*?<\/a>/gs` at the current
position. -/
def anchorMatchHere (s : List Char) : Option (Nat × Unit) :=
  match s with
  | '<' :: 'a' :: rest =>
    if (match rest with | [] => false | c :: _ => isWordChar c) then none
    else
      match splitAtChar '>' rest with
      | none => none
      | some (before, after) =>
        match findLit (str "</a>") after with
        | none => none
        | some consumed => some (before.length + consumed + 3, ())
  | _ => none

/-- The anchor-aware segmentation loop of `transform` (lines 66-83), with fuel
(one unit per recognized anchor; `s.length` suffices since anchor matches are
nonempty — the `m.isEmpty` branch is an unreachable guard for the fuel
recursion).  A segment is a substring paired with its `isAnchor` flag; empty
literal runs are skipped exactly as in the source. -/
def segmentAnchorsGo : Nat → List Char → List (List Char × Bool)
  | 0, s => if s.isEmpty then [] else [(s, false)]
  | fuel + 1, s =>
    match scanFirst anchorMatchHere s with
    | none => if s.isEmpty then [] else [(s, false)]
    | some (p, m, _, r) =>
      if m.isEmpty then if s.isEmpty then [] else [(s, false)]
      else
        (if p.isEmpty then [] else [(p, false)]) ++
          (m, true) :: segmentAnchorsGo fuel r

/-- Anchor-aware segmentation of a whole string. -/
def segmentAnchors (s : List Char) : List (List Char × Bool) :=
  segmentAnchorsGo s.length s

/-- Concatenate the text of all segments. -/
def joinSegs : List (List Char × Bool) → List Char
  | [] => []
  | p :: t => p.1 ++ joinSegs t

/-- The anchor markup emitted for a safe link (lines 58 and 99). -/
def anchorHtml (escapedHref escapedDisplay : List Char) : List Char :=
  str "<a href=\"" ++ escapedHref ++
    str "\" target=\"_blank\" rel=\"noopener noreferrer\">" ++
    escapedDisplay ++ str "</a>"

/-- The markdown-link replacement callback (lines 51-59). -/
def mdReplacement (title url : List Char) : List Char :=
  if isUrlSchemeSafe url = false then escapeHtml title
  else anchorHtml (escapeHtml (normalizeHref url)) (escapeHtml title)

/-- The plain-URL replacement callback (lines 91-100). -/
def urlReplacement (url : List Char) : List Char :=
  let cleanUrl := stripTrailingPunct url
  if isUrlSchemeSafe cleanUrl = false then escapeHtml cleanUrl
  else anchorHtml (escapeHtml (normalizeHref cleanUrl)) (escapeHtml cleanUrl)

/-- The markdown pass: `htmlWithLinks.replace(MARKDOWN_LINK_REGEX, ...)`. -/
def processMarkdown (s : List Char) : List Char :=
  replaceAll mdMatchHere (fun _m caps => mdReplacement caps.1 caps.2) s

/-- The per-segment step of the plain-URL pass (lines 86-101): anchors are
returned verbatim, literal runs go through the URL replacement. -/
def partRender (p : List Char × Bool) : List Char :=
  if p.2 = true then p.1
  else replaceAll urlMatchHere (fun m _ => urlReplacement m) p.1

/-- The plain-URL pass over the segmented string (lines 66-102). -/
def processParts (s : List Char) : List Char :=
  joinSegs ((segmentAnchors s).map (fun p => (partRender p, p.2)))

/-- The module-level mutable state of the two shared regex objects: their
`lastIndex` fields. -/
structure RegexSt where
  urlLastIndex : Nat
  mdLastIndex : Nat
deriving DecidableEq, Repr

/-- `RegExp.prototype.test` of a `g`-flagged regex: search from `lastIndex`;
on success move `lastIndex` past the match, on failure reset it to `0`. -/
def regexTestSt {α : Type} (mh : List Char → Option (Nat × α)) (s : List Char)
    (lastIndex : Nat) : Bool × Nat :=
  match scanFirst mh (s.drop lastIndex) with
  | some (p, m, _, _) => (true, lastIndex + p.length + m.length)
  | none => (false, 0)

/-- `RenderLinksPipe.transform` (lines 25-110).  `SafeHtml` wrapping
(`bypassSecurityTrustHtml`) is the identity on the underlying markup string.
The incoming `RegexSt` is the shared module state of `URL_REGEX` and
`MARKDOWN_LINK_REGEX`; the source resets `lastIndex` to `0` before every use,
and a global `replace` leaves `lastIndex` at `0`. -/
def transform (text : List Char) (renderLinks : Bool) (st : RegexSt) :
    List Char × RegexSt :=
  if text.isEmpty then ([], st)
  else if renderLinks = false then (escapeHtml text, st)
  else
    let hasUrlHint := containsStr (str "://") text || containsStr (str "www.") text
    let hasMarkdownHint := containsStr (str "](") text
    if hasUrlHint = false && hasMarkdownHint = false then (escapeHtml text, st)
    else
      let mdTest := regexTestSt mdMatchHere text 0
      let hasMarkdown := mdTest.1
      let step1 :=
        if hasMarkdown then (processMarkdown text, 0) else (text, mdTest.2)
      let htmlWithLinks := step1.1
      let urlTest := regexTestSt urlMatchHere htmlWithLinks 0
      let hasUrls := urlTest.1
      let step2 :=
        if hasUrls then (processParts htmlWithLinks, 0)
        else (htmlWithLinks, urlTest.2)
      if hasMarkdown = false && hasUrls = false then
        (escapeHtml text, ⟨step2.2, step1.2⟩)
      else (step2.1, ⟨step2.2, step1.2⟩)

/-- Is `c` one of the quote characters of the class `["']`? -/
def isQuoteChar (c : Char) : Bool := c.val = 34 || c.val = 39

/-- Remainders reachable by a greedy `[^>]*`, longest consumption first (the
backtracking order of the regex engine). -/
def gtRunSuffixes : List Char → List (List Char)
  | [] => [[]]
  | c :: rest =>
    if c = '>' then [c :: rest] else gtRunSuffixes rest ++ [c :: rest]

/-- Return the first `some` produced by `f` along the list (the priority
order of backtracking alternatives). -/
def firstSome {α β : Type} (f : α → Option β) : List α → Option β
  | [] => none
  | a :: t =>
    match f a with
    | some b => some b
    | none => firstSome f t

/-- Match of `/<title[^>]*>([^<]+)<\/title>/i` at the current position,
returning the capture.  The greedy `[^>]*` before the literal `>` reduces to
scanning to the first `>`, and the greedy `([^<]+)` before `<\/title>` can
only succeed on the maximal nonempty run up to the first `<`. -/
def titleTagMatchHere (s : List Char) : Option (Nat × List Char) :=
  match ciStrip (str "<title") s with
  | none => none
  | some r0 =>
    match splitAtChar '>' r0 with
    | none => none
    | some (_, r1) =>
      let (cap, r2) := takeRun (fun c => c ≠ '<') r1
      if cap.isEmpty then none
      else
        match ciStrip (str "</title>") r2 with
        | some _ => some (0, cap)
        | none => none

/-- The tail of og:title pattern 1 after a candidate `[^>]*` consumption:
`property=["']og:title["'][^>]*content=["']([^"']+)["']`. -/
def ogTail1 (r1 : List Char) : Option (Nat × List Char) :=
  match ciStrip (str "property=") r1 with
  | none => none
  | some r2 =>
    match r2 with
    | q1 :: r3 =>
      if isQuoteChar q1 then
        match ciStrip (str "og:title") r3 with
        | none => none
        | some r4 =>
          match r4 with
          | q2 :: r5 =>
            if isQuoteChar q2 then
              firstSome
                (fun r6 =>
                  match ciStrip (str "content=") r6 with
                  | none => none
                  | some r7 =>
                    match r7 with
                    | q3 :: r8 =>
                      if isQuoteChar q3 then
                        let (cap, r9) := takeRun (fun c => isQuoteChar c = false) r8
                        if cap.isEmpty then none
                        else
                          match r9 with
                          | q4 :: _ => if isQuoteChar q4 then some (0, cap) else none
                          | [] => none
                      else none
                    | [] => none)
                (gtRunSuffixes r5)
            else none
          | [] => none
      else none
    | [] => none

/-- Match of `/<meta[^>]*property=["']og:title["'][^>]*content=["']([^"']+)["']/i`
at the current position (greedy `[^>]*` runs tried longest-first). -/
def ogMatchHere1 (s : List Char) : Option (Nat × List Char) :=
  match ciStrip (str "<meta") s with
  | none => none
  | some r0 => firstSome ogTail1 (gtRunSuffixes r0)

/-- The tail of og:title pattern 2 (reversed attribute order) after a candidate
`[^>]*` consumption: `content=["']([^"']+)["'][^>]*property=["']og:title["']`. -/
def ogTail2 (r1 : List Char) : Option (Nat × List Char) :=
  match ciStrip (str "content=") r1 with
  | none => none
  | some r2 =>
    match r2 with
    | q1 :: r3 =>
      if isQuoteChar q1 then
        let (cap, r4) := takeRun (fun c => isQuoteChar c = false) r3
        if cap.isEmpty then none
        else
          match r4 with
          | q2 :: r5 =>
            if isQuoteChar q2 then
              firstSome
                (fun r6 =>
                  match ciStrip (str "property=") r6 with
                  | none => none
                  | some r7 =>
                    match r7 with
                    | q3 :: r8 =>
                      if isQuoteChar q3 then
                        match ciStrip (str "og:title") r8 with
                        | none => none
                        | some r9 =>
                          match r9 with
                          | q4 :: _ => if isQuoteChar q4 then some (0, cap) else none
                          | [] => none
                      else none
                    | [] => none)
                (gtRunSuffixes r5)
            else none
          | [] => none
      else none
    | [] => none

/-- Match of `/<meta[^>]*content=["']([^"']+)["'][^>]*property=["']og:title["']/i`
at the current position. -/
def ogMatchHere2 (s : List Char) : Option (Nat × List Char) :=
  match ciStrip (str "<meta") s with
  | none => none
  | some r0 => firstSome ogTail2 (gtRunSuffixes r0)

/-- First capture of a pattern anywhere in the string (`String.prototype.match`
without the `g` flag: leftmost match, capture group 1). -/
def firstCapture (mh : List Char → Option (Nat × List Char)) (s : List Char) :
    Option (List Char) :=
  match scanFirst mh s with
  | some (_, _, cap, _) => some cap
  | none => none

/-- `UrlMetadataService._extractTitle`: try the `<title>` tag, then the two
og:title attribute orders; each successful capture is trimmed.  The source
guards on `match[1]` being truthy, which is redundant since all three capture
groups are `+`-quantified (nonempty). -/
def extractTitle (html : List Char) : Option (List Char) :=
  match firstCapture titleTagMatchHere html with
  | some t => some (jsTrim t)
  | none =>
    match firstCapture ogMatchHere1 html with
    | some t => some (jsTrim t)
    | none =>
      match firstCapture ogMatchHere2 html with
      | some t => some (jsTrim t)
      | none => none

/-- One asynchronous outcome of the fetch attempted by `fetchTitle`:
the Electron main-process path resolved with a (possibly absent) title, the
Electron path threw/rejected, or the browser path completed with the document
text (`none` when the `catchError`/`timeout` pipeline produced `null`). -/
inductive FetchOutcome where
  | electronResult (title : Option (List Char))
  | electronThrow
  | browserHtml (html : Option (List Char))
deriving DecidableEq

/-- `UrlMetadataService.fetchTitle` for a single uncached call, as a function
of the fetch outcome.  The `file://` early return never consults the outcome.
JavaScript truthiness makes the empty string fall back (`title || fallbackTitle`),
and the surrounding `try/catch` turns any thrown error into the fallback.
The cache and pending-request maps (cross-call state) are not modelled. -/
def fetchTitle (url fallbackTitle : List Char) (o : FetchOutcome) : List Char :=
  if startsWithStr (str "file://") url then fallbackTitle
  else
    match o with
    | .electronThrow => fallbackTitle
    | .electronResult none => fallbackTitle
    | .electronResult (some t) => if t.isEmpty then fallbackTitle else t
    | .browserHtml none => fallbackTitle
    | .browserHtml (some h) =>
      match extractTitle h with
      | none => fallbackTitle
      | some t => if t.isEmpty then fallbackTitle else t


/-- The per-character semantics of `_escapeHtml`: the single map each character
is sent to.  Applying the ampersand replacement first is what makes `escapeHtml`
coincide with this one-pass map (entities introduced by later passes are not
rescanned). -/
def escChar (c : Char) : List Char :=
  if c = '&' then str "&amp;"
  else if c = '<' then str "&lt;"
  else if c = '>' then str "&gt;"
  else if c = Char.ofNat 34 then str "&quot;"
  else [c]

theorem scanFirst_append {α : Type} (mh : List Char → Option (Nat × α)) :
    ∀ (s p m : List Char) (a : α) (r : List Char),
      scanFirst mh s = some (p, m, a, r) → p ++ (m ++ r) = s := by
  intro s
  induction s with
  | nil =>
    intro p m a r h
    unfold scanFirst at h
    cases hm : mh [] with
    | none => rw [hm] at h; cases h
    | some v =>
      rw [hm] at h
      simp only [Option.some.injEq, Prod.mk.injEq] at h
      obtain ⟨h1, h2, _, h4⟩ := h
      subst h1; subst h2; subst h4
      rfl
  | cons c rest ih =>
    intro p m a r h
    unfold scanFirst at h
    cases hm : mh (c :: rest) with
    | some v =>
      rw [hm] at h
      obtain ⟨n, a0⟩ := v
      simp only [Option.some.injEq, Prod.mk.injEq] at h
      obtain ⟨h1, h2, _, h4⟩ := h
      subst h1; subst h2; subst h4
      simp [List.take_append_drop]
    | none =>
      rw [hm] at h
      cases hs : scanFirst mh rest with
      | none => rw [hs] at h; cases h
      | some w =>
        rw [hs] at h
        obtain ⟨p0, m0, a0, r0⟩ := w
        simp only [Option.some.injEq, Prod.mk.injEq] at h
        obtain ⟨h1, h2, h3, h4⟩ := h
        subst h1; subst h2; subst h4
        have := ih p0 m0 a0 r0 hs
        simpa using this

theorem segGo_join : ∀ (fuel : Nat) (s : List Char),
    joinSegs (segmentAnchorsGo fuel s) = s := by
  intro fuel
  induction fuel with
  | zero =>
    intro s
    by_cases h : s.isEmpty
    · simp [segmentAnchorsGo, h, joinSegs, List.isEmpty_iff.mp h]
    · simp [segmentAnchorsGo, h, joinSegs]
  | succ fuel ih =>
    intro s
    unfold segmentAnchorsGo
    cases hscan : scanFirst anchorMatchHere s with
    | none =>
      by_cases h : s.isEmpty
      · simp [h, joinSegs, List.isEmpty_iff.mp h]
      · simp [h, joinSegs]
    | some v =>
      obtain ⟨p, m, a, r⟩ := v
      have hjoin := scanFirst_append anchorMatchHere s p m a r hscan
      by_cases hm : m.isEmpty
      · by_cases h : s.isEmpty
        · simp [hm, h, joinSegs, List.isEmpty_iff.mp h]
        · simp [hm, h, joinSegs]
      · by_cases hp : p.isEmpty
        · have hp0 : p = [] := List.isEmpty_iff.mp hp
          simp only [hm, hp, if_neg, Bool.false_eq_true, ite_false, ite_true, if_pos]
          simp only [List.nil_append, joinSegs, ih r]
          rw [hp0] at hjoin
          simpa using hjoin
        · simp only [hm, hp, Bool.false_eq_true, ite_false]
          simp only [List.cons_append, List.nil_append, List.singleton_append, joinSegs, ih r]
          simpa using hjoin

theorem replaceChar_append (c : Char) (rep : List Char) :
    ∀ a b : List Char,
      replaceChar c rep (a ++ b) = replaceChar c rep a ++ replaceChar c rep b := by
  intro a b
  induction a with
  | nil => rfl
  | cons d t ih => simp [replaceChar, ih]

theorem escapeHtml_append (a b : List Char) :
    escapeHtml (a ++ b) = escapeHtml a ++ escapeHtml b := by
  simp [escapeHtml, replaceChar_append]

theorem escapeHtml_single (c : Char) : escapeHtml [c] = escChar c := by
  by_cases h1 : c = '&'
  · subst h1; decide
  · by_cases h2 : c = '<'
    · subst h2; decide
    · by_cases h3 : c = '>'
      · subst h3; decide
      · by_cases h4 : c = Char.ofNat 34
        · subst h4; decide
        · simp [escapeHtml, replaceChar, escChar, h1, h2, h3, h4]

/-- Claim C8: `escape` is a total function on strings whose effect is exactly
the per-character map sending `&` to `&amp;`, `<` to `&lt;`, `>` to `&gt;` and
`"` to `&quot;` — performing the ampersand replacement first means the
entities introduced by the other replacements are never re-escaped, so the
four sequential passes coincide with the one-pass per-character map. -/
theorem claim_C8 : ∀ text : List Char, escapeHtml text = (text.map escChar).flatten := by
  intro text
  induction text with
  | nil => rfl
  | cons c t ih =>
    have h : escapeHtml (c :: t) = escapeHtml [c] ++ escapeHtml t := by
      have := escapeHtml_append [c] t
      simpa using this
    rw [h, escapeHtml_single, ih]
    simp

/-- Claim C1 (refuted — code bug): the claim states that with link rendering
enabled every character of the output outside an engine-constructed anchor is
HTML-escaped.  Evaluating `transform` at the failing input
`"<b>hi</b> http://a.com"` shows the literal run `"<b>hi</b> "` surrounding
the plain-URL match reaching the output verbatim: the `<` and `>` of the
user-supplied `<b>` tag are unescaped, contradicting the claim (and the
pipe's own doc comment that all user-supplied content is HTML-escaped). -/
theorem claim_C1 :
    (transform (str "<b>hi</b> http://a.com") true ⟨0, 0⟩).1 =
      str "<b>hi</b> <a href=\"http://a.com\" target=\"_blank\" rel=\"noopener noreferrer\">http://a.com</a>" ∧
    containsStr (str "<b>") (transform (str "<b>hi</b> http://a.com") true ⟨0, 0⟩).1 = true := by
  constructor <;> decide

/-- Claim C10: `transform` is deterministic in the shared module-level regex
state — for every text and flag, the rendered output is independent of the
incoming `lastIndex` values of the two shared regex objects, because the code
resets `lastIndex` to `0` before every use. -/
theorem claim_C10 :
    ∀ (text : List Char) (renderLinks : Bool) (st st' : RegexSt),
      (transform text renderLinks st).1 = (transform text renderLinks st').1 := by
  intro t rl st st'
  by_cases h1 : t.isEmpty <;> by_cases h2 : rl = false <;>
    cases hc : containsStr (str "://") t <;> cases hw : containsStr (str "www.") t <;>
      cases hm : containsStr (str "](") t <;>
        simp [transform, h1, h2, hc, hw, hm]

/-- Claim C4: the anchor-aware segmentation is a lossless partition —
concatenating all segments in order reproduces the segmented string exactly —
and every segment recognized as an existing anchor is passed through the
plain-URL stage byte-identical (the URL replacement is never applied to it);
in particular a string that is already an anchor containing visible URL text
is left byte-identical by the whole plain-URL pass (no double-wrapping). -/
theorem claim_C4 :
    (∀ s : List Char, joinSegs (segmentAnchors s) = s) ∧
    (∀ (s p : List Char), (p, true) ∈ segmentAnchors s → partRender (p, true) = p) ∧
    processParts (str "<a href=\"http://x.com\">http://x.com</a>") =
      str "<a href=\"http://x.com\">http://x.com</a>" := by
  refine ⟨fun s => segGo_join s.length s, fun s p _ => by simp [partRender], ?_⟩
  decide

/-- Witness for claim C4: the anchor-segment pass-through applied to the
concrete segmentation of `"<a>x</a>"`, whose sole segment is an anchor. -/
theorem claim_C4_witness :
    ((str "<a>x</a>", true) ∈ segmentAnchors (str "<a>x</a>")) ∧
    partRender (str "<a>x</a>", true) = str "<a>x</a>" :=
  ⟨by decide, claim_C4.2.1 (str "<a>x</a>") (str "<a>x</a>") (by decide)⟩

/-- Claim C6: every markdown-link match whose target is classified unsafe is
replaced by exactly the escaped display text — no anchor and no error — and
the concrete render of `"[x](javascript:alert(1))"` produces `"x)"`, which
contains no `href="javascript:` substring. -/
theorem claim_C6 :
    (∀ title url : List Char,
      isUrlSchemeSafe url = false → mdReplacement title url = escapeHtml title) ∧
    (transform (str "[x](javascript:alert(1))") true ⟨0, 0⟩).1 = str "x)" ∧
    containsStr (str "href=\"javascript:")
      (transform (str "[x](javascript:alert(1))") true ⟨0, 0⟩).1 = false := by
  refine ⟨fun title url h => by simp [mdReplacement, h], by decide, by decide⟩

/-- Witness for claim C6: the unsafe-markdown clause applied at the concrete
match of `"[x](javascript:alert(1))"` (title `x`, target `javascript:alert(1`). -/
theorem claim_C6_witness :
    isUrlSchemeSafe (str "javascript:alert(1") = false ∧
    mdReplacement (str "x") (str "javascript:alert(1") = escapeHtml (str "x") :=
  ⟨by decide, claim_C6.1 (str "x") (str "javascript:alert(1") (by decide)⟩

theorem dropWhile_head?_not (p : Char → Bool) :
    ∀ (l : List Char) (c : Char), (l.dropWhile p).head? = some c → p c = false := by
  intro l
  induction l with
  | nil => intro c h; cases h
  | cons d t ih =>
    intro c h
    by_cases hd : p d
    · simp [List.dropWhile, hd] at h
      exact ih c h
    · simp [List.dropWhile, Bool.of_not_eq_true hd] at h
      subst h
      exact Bool.of_not_eq_true hd

/-- Counterexample to claim C3 as stated: the claim asserts that the stripped
trailing punctuation still follows the anchor as literal text; evaluating the
code at `"See http://a.com/x."` shows the output ends with the anchor and
contains no `</a>.` — the stripped period is dropped from the output. -/
theorem claim_C3_cex :
    (transform (str "See http://a.com/x.") true ⟨0, 0⟩).1 =
      str "See <a href=\"http://a.com/x\" target=\"_blank\" rel=\"noopener noreferrer\">http://a.com/x</a>" ∧
    containsStr (str "</a>.") (transform (str "See http://a.com/x.") true ⟨0, 0⟩).1 = false := by
  constructor <;> decide

/-- Claim C3, amended: for every plain-URL match the trailing sentence
punctuation is stripped and the punctuation-free URL is used as both href
source and display text, but the stripped punctuation is dropped from the
output entirely (the emitted anchor replaces the whole matched token), so
`render("See http://a.com/x.")` is `"See "` followed by the anchor with href
`http://a.com/x` and nothing after it. -/
theorem claim_C3 :
    (∀ (u : List Char) (c : Char),
      (stripTrailingPunct u).getLast? = some c → isSentencePunct c = false) ∧
    (∀ u : List Char, isUrlSchemeSafe (stripTrailingPunct u) = true →
      urlReplacement u =
        anchorHtml (escapeHtml (normalizeHref (stripTrailingPunct u)))
          (escapeHtml (stripTrailingPunct u))) ∧
    (transform (str "See http://a.com/x.") true ⟨0, 0⟩).1 =
      str "See <a href=\"http://a.com/x\" target=\"_blank\" rel=\"noopener noreferrer\">http://a.com/x</a>" := by
  refine ⟨?_, ?_, by decide⟩
  · intro u c h
    unfold stripTrailingPunct at h
    rw [List.getLast?_reverse] at h
    exact dropWhile_head?_not isSentencePunct u.reverse c h
  · intro u h
    simp [urlReplacement, h]

/-- Witness for claim C3: the punctuation-stripping clauses applied at
concrete inputs. -/
theorem claim_C3_witness :
    ((stripTrailingPunct (str "a.b.")).getLast? = some 'b' ∧
      isSentencePunct 'b' = false) ∧
    (isUrlSchemeSafe (stripTrailingPunct (str "http://a.com/x.")) = true ∧
      urlReplacement (str "http://a.com/x.") =
        anchorHtml (escapeHtml (normalizeHref (stripTrailingPunct (str "http://a.com/x."))))
          (escapeHtml (stripTrailingPunct (str "http://a.com/x.")))) :=
  ⟨⟨by decide, claim_C3.1 (str "a.b.") 'b' (by decide)⟩,
   ⟨by decide, claim_C3.2.1 (str "http://a.com/x.") (by decide)⟩⟩

/-- Counterexample to claim C5 as stated: the claim asserts the normalizer
returns upper- and mixed-case scheme spellings unchanged, but the anchored
protocol regex of `_normalizeHref` is case-sensitive: `HTTP://x` is accepted
by the (case-insensitive) scheme classifier yet gets `http://` prepended. -/
theorem claim_C5_cex :
    isUrlSchemeSafe (str "HTTP://x") = true ∧
    normalizeHref (str "HTTP://x") = str "http://HTTP://x" := by
  constructor <;> decide

/-- Claim C5, amended: for every scheme-safe URL, `normalize` returns the URL
unchanged only when it starts case-sensitively (lowercase) with `http://`,
`https://` or `file://`; otherwise it prepends `https:` when the URL starts
with `//`, and `http://` in every remaining case — including upper- or
mixed-case scheme spellings, which therefore do not pass through unchanged. -/
theorem claim_C5 :
    ∀ url : List Char, isUrlSchemeSafe url = true →
      ((startsWithStr (str "https://") url = true ∨
          startsWithStr (str "http://") url = true ∨
          startsWithStr (str "file://") url = true) → normalizeHref url = url) ∧
      (startsWithStr (str "https://") url = false →
        startsWithStr (str "http://") url = false →
        startsWithStr (str "file://") url = false →
        startsWithStr (str "//") url = true →
        normalizeHref url = str "https:" ++ url) ∧
      (startsWithStr (str "https://") url = false →
        startsWithStr (str "http://") url = false →
        startsWithStr (str "file://") url = false →
        startsWithStr (str "//") url = false →
        normalizeHref url = str "http://" ++ url) := by
  intro url _
  refine ⟨?_, ?_, ?_⟩
  · intro h
    rcases h with h | h | h <;> simp [normalizeHref, protocolRegexTest, h]
  · intro h1 h2 h3 h4
    simp [normalizeHref, protocolRegexTest, h1, h2, h3, h4]
  · intro h1 h2 h3 h4
    simp [normalizeHref, protocolRegexTest, h1, h2, h3, h4]

/-- Witness for claim C5: the three normalization branches applied at
concrete scheme-safe URLs. -/
theorem claim_C5_witness :
    (isUrlSchemeSafe (str "http://a") = true ∧
      normalizeHref (str "http://a") = str "http://a") ∧
    (isUrlSchemeSafe (str "//x") = true ∧
      normalizeHref (str "//x") = str "https:" ++ str "//x") ∧
    (isUrlSchemeSafe (str "www.x") = true ∧
      normalizeHref (str "www.x") = str "http://" ++ str "www.x") :=
  ⟨⟨by decide, (claim_C5 (str "http://a") (by decide)).1 (Or.inr (Or.inl (by decide)))⟩,
   ⟨by decide, (claim_C5 (str "//x") (by decide)).2.1 (by decide) (by decide) (by decide) (by decide)⟩,
   ⟨by decide, (claim_C5 (str "www.x") (by decide)).2.2 (by decide) (by decide) (by decide) (by decide)⟩⟩

/-- Claim C9: `fetchTitle(url, fallback)` returns the fallback for every
`file://` URL without consulting the fetch outcome (no network attempt), and
for every other URL every possible outcome of one call resolves to either a
nonempty extracted document title or the caller-supplied fallback — in the
model the function is total over all outcomes, including thrown errors,
absent titles and the `null` produced by the timeout/error pipeline, so no
outcome rejects. -/
theorem claim_C9 :
    (∀ (url fb : List Char) (o o' : FetchOutcome),
      startsWithStr (str "file://") url = true →
      fetchTitle url fb o = fb ∧ fetchTitle url fb o = fetchTitle url fb o') ∧
    (∀ (url fb : List Char) (o : FetchOutcome),
      fetchTitle url fb o = fb ∨
      (∃ h t, o = FetchOutcome.browserHtml (some h) ∧ extractTitle h = some t ∧
        t.isEmpty = false ∧ fetchTitle url fb o = t) ∨
      (∃ t, o = FetchOutcome.electronResult (some t) ∧ t.isEmpty = false ∧
        fetchTitle url fb o = t)) := by
  constructor
  · intro url fb o o' h
    constructor <;> simp [fetchTitle, h]
  · intro url fb o
    by_cases hf : startsWithStr (str "file://") url = true
    · left; simp [fetchTitle, hf]
    · cases o with
      | electronThrow => left; simp [fetchTitle, hf]
      | electronResult t =>
        cases t with
        | none => left; simp [fetchTitle, hf]
        | some t0 =>
          by_cases ht : t0.isEmpty
          · left; simp [fetchTitle, hf, ht]
          · right; right
            exact ⟨t0, rfl, Bool.of_not_eq_true ht, by simp [fetchTitle, hf, ht]⟩
      | browserHtml h =>
        cases h with
        | none => left; simp [fetchTitle, hf]
        | some h0 =>
          cases he : extractTitle h0 with
          | none => left; simp [fetchTitle, hf, he]
          | some t0 =>
            by_cases ht : t0.isEmpty
            · left; simp [fetchTitle, hf, he, ht]
            · right; left
              exact ⟨h0, t0, rfl, he, Bool.of_not_eq_true ht,
                by simp [fetchTitle, hf, he, ht]⟩

/-- Witness for claim C9: the `file://` clause applied at a concrete URL and
two distinct outcomes. -/
theorem claim_C9_witness :
    startsWithStr (str "file://") (str "file:///tmp/x") = true ∧
    fetchTitle (str "file:///tmp/x") (str "fb") FetchOutcome.electronThrow = str "fb" ∧
    fetchTitle (str "file:///tmp/x") (str "fb") FetchOutcome.electronThrow =
      fetchTitle (str "file:///tmp/x") (str "fb") (FetchOutcome.browserHtml none) :=
  ⟨by decide,
   (claim_C9.1 (str "file:///tmp/x") (str "fb") FetchOutcome.electronThrow
     (FetchOutcome.browserHtml none) (by decide)).1,
   (claim_C9.1 (str "file:///tmp/x") (str "fb") FetchOutcome.electronThrow
     (FetchOutcome.browserHtml none) (by decide)).2⟩

theorem findFirst_append {α : Type} (p : α → Bool) :
    ∀ l1 l2 : List α,
      (l1 ++ l2).find? p =
        match l1.find? p with
        | some x => some x
        | none => l2.find? p := by
  intro l1 l2
  induction l1 with
  | nil => simp
  | cons a t ih =>
    by_cases h : p a
    · simp [List.find?_cons_of_pos _ h]
    · simp only [List.cons_append, List.find?_cons_of_neg _ h, ih]

theorem nonWsRun_le_length : ∀ s : List Char, nonWsRun s ≤ s.length := by
  intro s
  induction s with
  | nil => simp [nonWsRun]
  | cons c t ih =>
    by_cases h : isJsWhitespace c <;> simp [nonWsRun, h]
    omega

theorem wsOrEnd_drop_nonWsRun : ∀ s : List Char, wsOrEnd (s.drop (nonWsRun s)) = true := by
  intro s
  induction s with
  | nil => rfl
  | cons c t ih =>
    by_cases h : isJsWhitespace c
    · simp [nonWsRun, h, wsOrEnd]
    · simp [nonWsRun, h, ih]

theorem wsOrEnd_eq_nonWsRun_zero :
    ∀ s : List Char, wsOrEnd s = true ↔ nonWsRun s = 0 := by
  intro s
  cases s with
  | nil => simp [wsOrEnd, nonWsRun]
  | cons c t =>
    by_cases h : isJsWhitespace c <;> simp [wsOrEnd, nonWsRun, h]

theorem find_sRun :
    ∀ (rest : List Char) (k : Nat),
      (sRunSuffixes rest k).find? wsOrEnd =
        if 1 ≤ nonWsRun rest ∧ nonWsRun rest ≤ k then
          some (rest.drop (nonWsRun rest))
        else none := by
  intro rest
  induction rest with
  | nil =>
    intro k
    cases k with
    | zero => simp [sRunSuffixes, nonWsRun]
    | succ k0 => simp [sRunSuffixes, nonWsRun]
  | cons c t ih =>
    intro k
    cases k with
    | zero =>
      rw [if_neg]
      · rfl
      · omega
    | succ k0 =>
      by_cases h : isJsWhitespace c
      · simp [sRunSuffixes, h, nonWsRun]
      · simp only [sRunSuffixes, h, Bool.false_eq_true, ite_false]
        rw [findFirst_append, ih k0]
        by_cases hcond : 1 ≤ nonWsRun t ∧ nonWsRun t ≤ k0
        · rw [if_pos hcond, if_pos]
          · simp [nonWsRun, h]
          · simp only [nonWsRun, h, Bool.false_eq_true, ite_false]
            omega
        · rw [if_neg hcond]
          by_cases h0 : nonWsRun t = 0
          · have hws : wsOrEnd t = true := (wsOrEnd_eq_nonWsRun_zero t).mpr h0
            simp only [List.find?_cons_of_pos _ hws, List.find?_nil]
            rw [if_pos]
            · simp [nonWsRun, h, h0]
            · simp only [nonWsRun, h, Bool.false_eq_true, ite_false]
              omega
          · have hws : wsOrEnd t = false := by
              rcases Bool.eq_false_or_eq_true (wsOrEnd t) with hw | hw
              · exact absurd ((wsOrEnd_eq_nonWsRun_zero t).mp hw) h0
              · exact hw
            have hneg : ¬(wsOrEnd t = true) := by simp [hws]
            simp only [List.find?_cons_of_neg _ hneg, List.find?_nil]
            rw [if_neg]
            simp only [nonWsRun, h, Bool.false_eq_true, ite_false]
            omega

theorem ciStrip_some_decomp :
    ∀ (pat s rest : List Char), ciStrip pat s = some rest →
      lowerStr (s.take pat.length) = lowerStr pat ∧ rest = s.drop pat.length := by
  intro pat
  induction pat with
  | nil =>
    intro s rest h
    simp [ciStrip] at h
    subst h
    simp [lowerStr]
  | cons p ps ih =>
    intro s rest h
    cases s with
    | nil => cases h
    | cons c cs =>
      simp only [ciStrip] at h
      by_cases hc : asciiLower c = asciiLower p
      · rw [if_pos hc] at h
        obtain ⟨h1, h2⟩ := ih cs rest h
        constructor
        · simp only [List.length_cons, List.take_succ_cons, lowerStr, List.map_cons]
          rw [hc]
          simpa [lowerStr] using h1
        · simpa using h2
      · rw [if_neg hc] at h
        cases h

theorem ciStrip_agree (pat1 pat2 s r1 r2 : List Char)
    (h1 : ciStrip pat1 s = some r1) (h2 : ciStrip pat2 s = some r2) :
    lowerStr (pat1.take pat2.length) = lowerStr (pat2.take pat1.length) := by
  obtain ⟨ha, _⟩ := ciStrip_some_decomp pat1 s r1 h1
  obtain ⟨hb, _⟩ := ciStrip_some_decomp pat2 s r2 h2
  have ka : lowerStr (pat1.take pat2.length) =
      (s.map asciiLower).take (min pat2.length pat1.length) := by
    calc lowerStr (pat1.take pat2.length)
        = (lowerStr pat1).take pat2.length := by simp [lowerStr, List.map_take]
      _ = (lowerStr (s.take pat1.length)).take pat2.length := by rw [ha]
      _ = (s.map asciiLower).take (min pat2.length pat1.length) := by
          simp [lowerStr, List.map_take, List.take_take]
  have kb : lowerStr (pat2.take pat1.length) =
      (s.map asciiLower).take (min pat1.length pat2.length) := by
    calc lowerStr (pat2.take pat1.length)
        = (lowerStr pat2).take pat1.length := by simp [lowerStr, List.map_take]
      _ = (lowerStr (s.take pat2.length)).take pat1.length := by rw [hb]
      _ = (s.map asciiLower).take (min pat1.length pat2.length) := by
          simp [lowerStr, List.map_take, List.take_take]
  rw [ka, kb, Nat.min_comm]

theorem urlAlt_some_inv (pat s : List Char) (n : Nat) (a : Unit)
    (h : urlAlt pat s = some (n, a)) :
    ∃ rest, ciStrip pat s = some rest ∧ 1 ≤ nonWsRun rest ∧
      nonWsRun rest ≤ 2000 ∧ n = pat.length + nonWsRun rest ∧
      wsOrEnd (rest.drop (nonWsRun rest)) = true := by
  unfold urlAlt at h
  cases hstrip : ciStrip pat s with
  | none => rw [hstrip] at h; cases h
  | some rest =>
    rw [hstrip] at h
    dsimp only at h
    rw [find_sRun] at h
    by_cases hcond : 1 ≤ nonWsRun rest ∧ nonWsRun rest ≤ 2000
    · rw [if_pos hcond] at h
      dsimp only at h
      simp only [Option.some.injEq, Prod.mk.injEq] at h
      refine ⟨rest, rfl, hcond.1, hcond.2, ?_, wsOrEnd_drop_nonWsRun rest⟩
      have hlen : (rest.drop (nonWsRun rest)).length = rest.length - nonWsRun rest := by
        simp
      rw [← h.1, hlen]
      have := nonWsRun_le_length rest
      omega
    · rw [if_neg hcond] at h
      cases h

theorem urlAlt_none_of_long (pat s rest : List Char)
    (hstrip : ciStrip pat s = some rest) (hlong : 2000 < nonWsRun rest) :
    urlAlt pat s = none := by
  unfold urlAlt
  rw [hstrip]
  dsimp only
  rw [find_sRun, if_neg]
  omega

theorem urlAlt_none_of_strip (pat s : List Char)
    (hstrip : ciStrip pat s = none) : urlAlt pat s = none := by
  unfold urlAlt
  rw [hstrip]

theorem nonWsRun_replicate (n : Nat) (c : Char) (h : isJsWhitespace c = false) :
    nonWsRun (List.replicate n c) = n := by
  induction n with
  | zero => rfl
  | succ k ih => simp [List.replicate, nonWsRun, h, ih]

theorem orElse4_some {α : Type} {x1 x2 x3 x4 : Option α} {v : α}
    (h : (x1 <|> x2 <|> x3 <|> x4) = some v) :
    x1 = some v ∨ x2 = some v ∨ x3 = some v ∨ x4 = some v := by
  cases hx1 : x1 with
  | some w =>
    rw [hx1] at h
    simp only [Option.some_orElse] at h
    exact Or.inl h
  | none =>
    rw [hx1] at h
    simp only [Option.none_orElse] at h
    cases hx2 : x2 with
    | some w =>
      rw [hx2] at h
      simp only [Option.some_orElse] at h
      exact Or.inr (Or.inl h)
    | none =>
      rw [hx2] at h
      simp only [Option.none_orElse] at h
      cases hx3 : x3 with
      | some w =>
        rw [hx3] at h
        simp only [Option.some_orElse] at h
        exact Or.inr (Or.inr (Or.inl h))
      | none =>
        rw [hx3] at h
        simp only [Option.none_orElse] at h
        exact Or.inr (Or.inr (Or.inr h))

theorem urlAlt_none_conflict (pat1 pat2 s rest : List Char)
    (h1 : ciStrip pat1 s = some rest)
    (hne : lowerStr (pat1.take pat2.length) ≠ lowerStr (pat2.take pat1.length)) :
    urlAlt pat2 s = none := by
  cases hx : ciStrip pat2 s with
  | none => exact urlAlt_none_of_strip _ _ hx
  | some r2 => exact absurd (ciStrip_agree pat1 pat2 s rest r2 h1 hx) hne

/-- Claim C7: the plain-URL detector matches exactly the tokens consisting of
one of the (case-insensitive) prefixes `https://`, `http://`, `file://`,
`www.` followed by 1 to 2000 non-whitespace characters terminated by
whitespace or end-of-string (the matched run is the maximal non-whitespace
run after the prefix); and whenever the non-whitespace run following such a
prefix exceeds 2000 characters, the matcher produces no match at that token,
so the over-long token is never turned into an anchor. -/
theorem claim_C7 :
    (∀ (s : List Char) (n : Nat), urlMatchHere s = some (n, ()) →
      ∃ pat ∈ urlPrefixes, ∃ rest, ciStrip pat s = some rest ∧
        1 ≤ nonWsRun rest ∧ nonWsRun rest ≤ 2000 ∧
        n = pat.length + nonWsRun rest ∧
        wsOrEnd (rest.drop (nonWsRun rest)) = true) ∧
    (∀ pat ∈ urlPrefixes, ∀ (s rest : List Char), ciStrip pat s = some rest →
      2000 < nonWsRun rest → urlMatchHere s = none) := by
  constructor
  · intro s n h
    unfold urlMatchHere at h
    rcases orElse4_some h with h1 | h1 | h1 | h1
    · exact ⟨str "https://", by decide, urlAlt_some_inv _ s n () h1⟩
    · exact ⟨str "http://", by decide, urlAlt_some_inv _ s n () h1⟩
    · exact ⟨str "file://", by decide, urlAlt_some_inv _ s n () h1⟩
    · exact ⟨str "www.", by decide, urlAlt_some_inv _ s n () h1⟩
  · intro pat hmem s rest hstrip hlong
    simp only [urlPrefixes, List.mem_cons, List.mem_singleton,
      List.not_mem_nil, or_false] at hmem
    unfold urlMatchHere
    rcases hmem with rfl | rfl | rfl | rfl
    · rw [urlAlt_none_of_long _ _ _ hstrip hlong,
        urlAlt_none_conflict _ _ _ _ hstrip (by decide),
        urlAlt_none_conflict _ _ _ _ hstrip (by decide),
        urlAlt_none_conflict _ _ _ _ hstrip (by decide)]
      rfl
    · rw [urlAlt_none_of_long _ _ _ hstrip hlong,
        urlAlt_none_conflict _ _ _ _ hstrip (by decide),
        urlAlt_none_conflict _ _ _ _ hstrip (by decide),
        urlAlt_none_conflict _ _ _ _ hstrip (by decide)]
      rfl
    · rw [urlAlt_none_of_long _ _ _ hstrip hlong,
        urlAlt_none_conflict _ _ _ _ hstrip (by decide),
        urlAlt_none_conflict _ _ _ _ hstrip (by decide),
        urlAlt_none_conflict _ _ _ _ hstrip (by decide)]
      rfl
    · rw [urlAlt_none_of_long _ _ _ hstrip hlong,
        urlAlt_none_conflict _ _ _ _ hstrip (by decide),
        urlAlt_none_conflict _ _ _ _ hstrip (by decide),
        urlAlt_none_conflict _ _ _ _ hstrip (by decide)]
      rfl

/-- Witness for claim C7: the match-shape clause applied at the concrete match
`www.ab`, and the 2000-character cap applied at `http://` followed by 2001
non-whitespace characters. -/
theorem claim_C7_witness :
    (∃ pat ∈ urlPrefixes, ∃ rest, ciStrip pat (str "www.ab") = some rest ∧
      1 ≤ nonWsRun rest ∧ nonWsRun rest ≤ 2000 ∧
      6 = pat.length + nonWsRun rest ∧
      wsOrEnd (rest.drop (nonWsRun rest)) = true) ∧
    urlMatchHere (str "http://" ++ List.replicate 2001 'a') = none := by
  constructor
  · exact claim_C7.1 (str "www.ab") 6 (by decide)
  · exact claim_C7.2 (str "http://") (by decide)
      (str "http://" ++ List.replicate 2001 'a') (List.replicate 2001 'a') rfl
      (by rw [nonWsRun_replicate 2001 'a' (by decide)]; omega)

theorem asciiLower_tcs_chars : ∀ c : Char,
    (asciiLower c = ':' ↔ c = ':') ∧ (asciiLower c = '/' ↔ c = '/') := by
  intro c
  by_cases h1 : c = 'A'
  · subst h1; decide
  by_cases h2 : c = 'B'
  · subst h2; decide
  by_cases h3 : c = 'C'
  · subst h3; decide
  by_cases h4 : c = 'D'
  · subst h4; decide
  by_cases h5 : c = 'E'
  · subst h5; decide
  by_cases h6 : c = 'F'
  · subst h6; decide
  by_cases h7 : c = 'G'
  · subst h7; decide
  by_cases h8 : c = 'H'
  · subst h8; decide
  by_cases h9 : c = 'I'
  · subst h9; decide
  by_cases h10 : c = 'J'
  · subst h10; decide
  by_cases h11 : c = 'K'
  · subst h11; decide
  by_cases h12 : c = 'L'
  · subst h12; decide
  by_cases h13 : c = 'M'
  · subst h13; decide
  by_cases h14 : c = 'N'
  · subst h14; decide
  by_cases h15 : c = 'O'
  · subst h15; decide
  by_cases h16 : c = 'P'
  · subst h16; decide
  by_cases h17 : c = 'Q'
  · subst h17; decide
  by_cases h18 : c = 'R'
  · subst h18; decide
  by_cases h19 : c = 'S'
  · subst h19; decide
  by_cases h20 : c = 'T'
  · subst h20; decide
  by_cases h21 : c = 'U'
  · subst h21; decide
  by_cases h22 : c = 'V'
  · subst h22; decide
  by_cases h23 : c = 'W'
  · subst h23; decide
  by_cases h24 : c = 'X'
  · subst h24; decide
  by_cases h25 : c = 'Y'
  · subst h25; decide
  by_cases h26 : c = 'Z'
  · subst h26; decide
  have he : asciiLower c = c := by
    unfold asciiLower
    rw [if_neg h1, if_neg h2, if_neg h3, if_neg h4, if_neg h5, if_neg h6, if_neg h7, if_neg h8, if_neg h9, if_neg h10, if_neg h11, if_neg h12, if_neg h13, if_neg h14, if_neg h15, if_neg h16, if_neg h17, if_neg h18, if_neg h19, if_neg h20, if_neg h21, if_neg h22, if_neg h23, if_neg h24, if_neg h25, if_neg h26]
  rw [he]
  exact ⟨Iff.rfl, Iff.rfl⟩

theorem tcs_eq : str "://" = [':', '/', '/'] := rfl

theorem startsWith_tcs :
    ∀ s : List Char,
      startsWithStr (str "://") (lowerStr s) = startsWithStr (str "://") s := by
  intro s
  rw [tcs_eq]
  match s with
  | [] => rfl
  | [c1] => simp [startsWithStr, lowerStr]
  | [c1, c2] =>
    simp [startsWithStr, lowerStr, (asciiLower_tcs_chars c1).1, (asciiLower_tcs_chars c2).2]
  | c1 :: c2 :: c3 :: rest =>
    simp [startsWithStr, lowerStr, (asciiLower_tcs_chars c1).1,
      (asciiLower_tcs_chars c2).2, (asciiLower_tcs_chars c3).2]

theorem contains_lower :
    ∀ s : List Char,
      containsStr (str "://") (lowerStr s) = containsStr (str "://") s := by
  intro s
  induction s with
  | nil => rfl
  | cons c t ih =>
    have hcons : lowerStr (c :: t) = asciiLower c :: lowerStr t := rfl
    rw [hcons]
    show (startsWithStr (str "://") (asciiLower c :: lowerStr t) ||
        containsStr (str "://") (lowerStr t)) =
      (startsWithStr (str "://") (c :: t) || containsStr (str "://") t)
    rw [ih]
    have := startsWith_tcs (c :: t)
    rw [hcons] at this
    rw [this]

theorem startsWithStr_exists :
    ∀ pat s : List Char, startsWithStr pat s = true ↔ ∃ b, s = pat ++ b := by
  intro pat
  induction pat with
  | nil =>
    intro s
    simp [startsWithStr]
  | cons p ps ih =>
    intro s
    cases s with
    | nil =>
      simp [startsWithStr]
    | cons c cs =>
      simp only [startsWithStr, Bool.and_eq_true, decide_eq_true_eq, ih,
        List.cons_append, List.cons.injEq]
      constructor
      · rintro ⟨rfl, b, rfl⟩
        exact ⟨b, rfl, rfl⟩
      · rintro ⟨b, rfl, rfl⟩
        exact ⟨rfl, b, rfl⟩

theorem containsStr_exists :
    ∀ pat s : List Char,
      containsStr pat s = true ↔ ∃ a b, s = a ++ pat ++ b := by
  intro pat s
  induction s with
  | nil =>
    show startsWithStr pat [] = true ↔ _
    rw [startsWithStr_exists]
    constructor
    · rintro ⟨b, hb⟩
      exact ⟨[], b, by simpa using hb⟩
    · rintro ⟨a, b, hab⟩
      have : pat = [] ∧ a = [] ∧ b = [] := by
        constructor
        · cases a <;> cases pat <;> simp_all
        · constructor
          · cases a <;> simp_all
          · cases a <;> cases pat <;> cases b <;> simp_all
      exact ⟨[], by simp [this.1]⟩
  | cons c t ih =>
    show (startsWithStr pat (c :: t) || containsStr pat t) = true ↔ _
    rw [Bool.or_eq_true, startsWithStr_exists, ih]
    constructor
    · rintro (⟨b, hb⟩ | ⟨a, b, hb⟩)
      · exact ⟨[], b, by simp [hb]⟩
      · exact ⟨c :: a, b, by simp [hb]⟩
    · rintro ⟨a, b, hab⟩
      cases a with
      | nil =>
        left
        exact ⟨b, by simpa using hab⟩
      | cons a0 at0 =>
        right
        simp only [List.cons_append, List.cons.injEq] at hab
        exact ⟨at0, b, hab.2⟩

theorem containsStr_rev :
    ∀ pat s : List Char, containsStr pat s.reverse = containsStr pat.reverse s := by
  intro pat s
  cases hA : containsStr pat s.reverse <;> cases hB : containsStr pat.reverse s <;>
    try rfl
  · exfalso
    obtain ⟨a, b, hab⟩ := (containsStr_exists _ _).mp hB
    have hcontra : containsStr pat s.reverse = true := by
      apply (containsStr_exists _ _).mpr
      exact ⟨b.reverse, a.reverse, by simp [hab]⟩
    rw [hA] at hcontra
    cases hcontra
  · exfalso
    obtain ⟨a, b, hab⟩ := (containsStr_exists _ _).mp hA
    have hs : s = b.reverse ++ pat.reverse ++ a.reverse := by
      have := congrArg List.reverse hab
      simpa [List.reverse_append] using this
    have hcontra : containsStr pat.reverse s = true :=
      (containsStr_exists _ _).mpr ⟨b.reverse, a.reverse, by simpa using hs⟩
    rw [hB] at hcontra
    cases hcontra

theorem contains_dropWhile (ph : Char) (pt : List Char)
    (hph : isJsWhitespace ph = false) :
    ∀ s : List Char,
      containsStr (ph :: pt) (s.dropWhile isJsWhitespace) = containsStr (ph :: pt) s := by
  intro s
  induction s with
  | nil => rfl
  | cons c t ih =>
    by_cases hc : isJsWhitespace c
    · have hne : (c = ph) = False := by
        simp only [eq_iff_iff, iff_false]
        intro h
        rw [h, hph] at hc
        cases hc
      have hdw : (c :: t).dropWhile isJsWhitespace = t.dropWhile isJsWhitespace := by
        simp [List.dropWhile, hc]
      rw [hdw, ih]
      show _ = (startsWithStr (ph :: pt) (c :: t) || containsStr (ph :: pt) t)
      simp [startsWithStr, hne]
    · have hdw : (c :: t).dropWhile isJsWhitespace = c :: t := by
        simp [List.dropWhile, hc]
      rw [hdw]

theorem contains_trim :
    ∀ s : List Char, containsStr (str "://") (jsTrim s) = containsStr (str "://") s := by
  intro s
  unfold jsTrim
  have hrev : (str "://").reverse = '/' :: ['/', ':'] := rfl
  calc containsStr (str "://")
        (((s.dropWhile isJsWhitespace).reverse.dropWhile isJsWhitespace).reverse)
      = containsStr (str "://").reverse
          ((s.dropWhile isJsWhitespace).reverse.dropWhile isJsWhitespace) :=
        containsStr_rev _ _
    _ = containsStr (str "://").reverse (s.dropWhile isJsWhitespace).reverse := by
        rw [hrev]
        exact contains_dropWhile '/' ['/', ':'] (by decide) _
    _ = containsStr (str "://").reverse.reverse (s.dropWhile isJsWhitespace) :=
        containsStr_rev _ _
    _ = containsStr (str "://") (s.dropWhile isJsWhitespace) := by
        rw [List.reverse_reverse]
    _ = containsStr (str "://") s := by
        rw [tcs_eq]
        exact contains_dropWhile ':' ['/', '/'] (by decide) _

theorem startsWith_two :
    ∀ (p1 p2 s : List Char), startsWithStr p1 s = true → startsWithStr p2 s = true →
      p1.length ≤ p2.length → startsWithStr p1 p2 = true := by
  intro p1
  induction p1 with
  | nil => intro p2 s _ _ _; rfl
  | cons x xs ih =>
    intro p2 s h1 h2 hlen
    cases p2 with
    | nil => simp at hlen
    | cons y ys =>
      cases s with
      | nil => simp [startsWithStr] at h1
      | cons c cs =>
        simp only [startsWithStr, Bool.and_eq_true, decide_eq_true_eq] at h1 h2 ⊢
        obtain ⟨hcx, h1t⟩ := h1
        obtain ⟨hcy, h2t⟩ := h2
        exact ⟨hcy.symm.trans hcx, ih ys cs h1t h2t (by simpa using hlen)⟩

theorem no_danger_of_safe (l : List Char)
    (hsafe : startsWithStr (str "http://") l = true ∨
      startsWithStr (str "https://") l = true ∨
      startsWithStr (str "file://") l = true ∨
      startsWithStr (str "//") l = true) :
    ∀ p ∈ dangerousSchemes, startsWithStr p l = false := by
  intro p hp
  simp only [dangerousSchemes, List.mem_cons, List.not_mem_nil, or_false] at hp
  rcases hp with rfl | rfl | rfl <;> rcases hsafe with hs | hs | hs | hs <;>
    (refine Bool.eq_false_iff.mpr fun hB => ?_
     first
       | exact absurd (startsWith_two _ _ _ hs hB (by decide)) (by decide)
       | exact absurd (startsWith_two _ _ _ hB hs (by decide)) (by decide))

/-- Counterexample to claim C2 as stated: the claim asserts the classifier
returns true for every candidate containing no `://` at all, but the dangerous
scheme check fires first: `javascript:alert(1)` contains no `://` yet is
rejected. -/
theorem claim_C2_cex :
    containsStr (str "://") (str "javascript:alert(1)") = false ∧
    isUrlSchemeSafe (str "javascript:alert(1)") = false := by
  constructor <;> decide

/-- Claim C2, amended: `isUrlSchemeSafe` returns false for every candidate
whose trimmed lower-casing starts with `javascript:`, `data:` or `vbscript:`;
returns true for every candidate whose trimmed lower-casing starts with
`http://`, `https://`, `file://` or `//`; returns true for every candidate
containing no `://` at all, provided its trimmed lower-casing does not start
with a dangerous scheme (the dangerous-scheme rejection takes priority over
the no-`://` acceptance); and returns false for every other candidate
containing `://` (unknown scheme, fail closed). -/
theorem claim_C2 :
    (∀ url : List Char,
      (∃ p ∈ dangerousSchemes, startsWithStr p (lowerStr (jsTrim url)) = true) →
      isUrlSchemeSafe url = false) ∧
    (∀ url : List Char,
      (startsWithStr (str "http://") (lowerStr (jsTrim url)) = true ∨
        startsWithStr (str "https://") (lowerStr (jsTrim url)) = true ∨
        startsWithStr (str "file://") (lowerStr (jsTrim url)) = true ∨
        startsWithStr (str "//") (lowerStr (jsTrim url)) = true) →
      isUrlSchemeSafe url = true) ∧
    (∀ url : List Char, containsStr (str "://") url = false →
      (∀ p ∈ dangerousSchemes, startsWithStr p (lowerStr (jsTrim url)) = false) →
      isUrlSchemeSafe url = true) ∧
    (∀ url : List Char, containsStr (str "://") url = true →
      (∀ p ∈ dangerousSchemes, startsWithStr p (lowerStr (jsTrim url)) = false) →
      startsWithStr (str "http://") (lowerStr (jsTrim url)) = false →
      startsWithStr (str "https://") (lowerStr (jsTrim url)) = false →
      startsWithStr (str "file://") (lowerStr (jsTrim url)) = false →
      startsWithStr (str "//") (lowerStr (jsTrim url)) = false →
      isUrlSchemeSafe url = false) := by
  refine ⟨?_, ?_, ?_, ?_⟩
  · intro url hex
    obtain ⟨p, hp, hsw⟩ := hex
    have hany : dangerousSchemes.any
        (fun scheme => startsWithStr scheme (lowerStr (jsTrim url))) = true :=
      List.any_eq_true.mpr ⟨p, hp, hsw⟩
    simp only [isUrlSchemeSafe]
    rw [if_pos hany]
  · intro url hsafe
    have hnd := no_danger_of_safe (lowerStr (jsTrim url)) hsafe
    have hneg : ¬(dangerousSchemes.any
        (fun scheme => startsWithStr scheme (lowerStr (jsTrim url))) = true) := by
      rw [List.any_eq_true]
      rintro ⟨p, hp, hsw⟩
      rw [hnd p hp] at hsw
      cases hsw
    have hor : (startsWithStr (str "http://") (lowerStr (jsTrim url)) ||
        startsWithStr (str "https://") (lowerStr (jsTrim url)) ||
        startsWithStr (str "file://") (lowerStr (jsTrim url)) ||
        startsWithStr (str "//") (lowerStr (jsTrim url))) = true := by
      rcases hsafe with h | h | h | h <;> simp [h]
    simp only [isUrlSchemeSafe]
    rw [if_neg hneg, if_pos hor]
  · intro url hnc hnd
    have hneg : ¬(dangerousSchemes.any
        (fun scheme => startsWithStr scheme (lowerStr (jsTrim url))) = true) := by
      rw [List.any_eq_true]
      rintro ⟨p, hp, hsw⟩
      rw [hnd p hp] at hsw
      cases hsw
    have hlow : containsStr (str "://") (lowerStr (jsTrim url)) = false := by
      rw [contains_lower, contains_trim]
      exact hnc
    simp only [isUrlSchemeSafe]
    rw [if_neg hneg]
    by_cases hb : (startsWithStr (str "http://") (lowerStr (jsTrim url)) ||
        startsWithStr (str "https://") (lowerStr (jsTrim url)) ||
        startsWithStr (str "file://") (lowerStr (jsTrim url)) ||
        startsWithStr (str "//") (lowerStr (jsTrim url))) = true
    · rw [if_pos hb]
    · rw [if_neg hb, if_pos hlow]
  · intro url hc hnd h1 h2 h3 h4
    have hneg : ¬(dangerousSchemes.any
        (fun scheme => startsWithStr scheme (lowerStr (jsTrim url))) = true) := by
      rw [List.any_eq_true]
      rintro ⟨p, hp, hsw⟩
      rw [hnd p hp] at hsw
      cases hsw
    have hlow : containsStr (str "://") (lowerStr (jsTrim url)) = true := by
      rw [contains_lower, contains_trim]
      exact hc
    have hor : ¬((startsWithStr (str "http://") (lowerStr (jsTrim url)) ||
        startsWithStr (str "https://") (lowerStr (jsTrim url)) ||
        startsWithStr (str "file://") (lowerStr (jsTrim url)) ||
        startsWithStr (str "//") (lowerStr (jsTrim url))) = true) := by
      simp [h1, h2, h3, h4]
    simp only [isUrlSchemeSafe]
    rw [if_neg hneg, if_neg hor, if_neg (by simp [hlow])]

/-- Witness for claim C2: the four classifier clauses applied at concrete
candidates (with leading whitespace and upper case exercising the
trim/lower-casing). -/
theorem claim_C2_witness :
    isUrlSchemeSafe (str " JAVASCRIPT:x") = false ∧
    isUrlSchemeSafe (str "HTTP://x") = true ∧
    isUrlSchemeSafe (str "www.x") = true ∧
    isUrlSchemeSafe (str "ftp://x") = false :=
  ⟨claim_C2.1 (str " JAVASCRIPT:x") ⟨str "javascript:", by decide, by decide⟩,
   claim_C2.2.1 (str "HTTP://x") (Or.inl (by decide)),
   claim_C2.2.2.1 (str "www.x") (by decide) (by decide),
   claim_C2.2.2.2 (str "ftp://x") (by decide) (by decide) (by decide) (by decide)
     (by decide) (by decide)⟩
